import Mathlib

/-!
Verification development for the todoist-ai-chat console client.

The definitions below are a shallow embedding of the TypeScript sources:
the schema-cleaning transformation (cleanSchemaForGemini), the
reconnect-and-retry tool invocation loop (callToolWithRetry), the
response handling of the orchestrator (handleModelResponse / processUserInput),
and the console line handler of startChat with its reentrancy guard.
JavaScript dynamic values are modelled by an inductive JSON-like type;
machine effects (the Gemini model, the MCP endpoint, the current date)
are modelled as explicit environment parameters holding the outcome of
each external call.
-/

/-- A JavaScript value as it occurs in the chat client: primitives,
arrays and string-keyed objects.  Object fields are kept in
insertion order, mirroring JS object semantics. -/
inductive Json where
  | null
  | undef
  | bool (b : Bool)
  | num (n : Int)
  | str (s : String)
  | arr (elems : List Json)
  | obj (fields : List (String × Json))

/-- JS truthiness of a value (NaN is not modelled; numbers are integers). -/
def jsTruthy : Json → Bool
  | .null => false
  | .undef => false
  | .bool b => b
  | .num n => n != 0
  | .str s => s != ""
  | .arr _ => true
  | .obj _ => true

/-- Whether the JS typeof operator classifies x as an object.
In JavaScript this holds for objects, arrays and null. -/
def jsTypeofObject : Json → Bool
  | .null => true
  | .arr _ => true
  | .obj _ => true
  | _ => false

/-- Own enumerable string-keyed entries of a value, as produced by
Object.entries and by object spread: the fields of an object, the
index-keyed elements of an array, the index-keyed characters of a string, nothing for
other primitives. -/
def jsEntries : Json → List (String × Json)
  | .obj fields => fields
  | .arr elems => elems.enum.map (fun p => (Nat.repr p.1, p.2))
  | .str s => s.data.enum.map (fun p => (Nat.repr p.1, Json.str (String.singleton p.2)))
  | _ => []

/-- Property read on a field list (first matching key). -/
def lookupField (key : String) (fields : List (String × Json)) : Option Json :=
  (fields.find? (fun p => p.1 == key)).map Prod.snd

/-- The JS delete operator on a field list: the key is removed. -/
def eraseField (key : String) (fields : List (String × Json)) : List (String × Json) :=
  fields.filter (fun p => p.1 != key)

/-- Assignment to an existing key: the value is replaced in place,
keeping the position of the field. -/
def setField (key : String) (v : Json) (fields : List (String × Json)) : List (String × Json) :=
  fields.map (fun p => if p.1 == key then (key, v) else p)

mutual

/-- Nesting depth of a JSON value (primitives have depth 0). -/
def jdepth : Json → Nat
  | .null | .undef | .bool _ | .num _ | .str _ => 0
  | .arr elems => jdepthList elems + 1
  | .obj fields => jdepthFields fields + 1

/-- Maximal depth of the elements of a list. -/
def jdepthList : List Json → Nat
  | [] => 0
  | x :: xs => max (jdepth x) (jdepthList xs)

/-- Maximal depth of the values of a field list. -/
def jdepthFields : List (String × Json) → Nat
  | [] => 0
  | (_, x) :: fs => max (jdepth x) (jdepthFields fs)

end

theorem snd_mem_of_mem_enum {α : Type _} {l : List α} {i : Nat} {x : α}
    (h : (i, x) ∈ l.enum) : x ∈ l :=
  List.getElem?_mem (List.mk_mem_enum_iff_getElem?.mp h)

theorem jdepthFields_le {fields : List (String × Json)} {k : String} {x : Json}
    (h : (k, x) ∈ fields) : jdepth x ≤ jdepthFields fields := by
  induction fields with
  | nil => cases h
  | cons p fs ih =>
    cases h with
    | head => simp [jdepthFields]
    | tail _ h =>
      rcases p with ⟨k', x'⟩
      exact le_trans (ih h) (by simp [jdepthFields])

theorem jdepthList_le {elems : List Json} {x : Json}
    (h : x ∈ elems) : jdepth x ≤ jdepthList elems := by
  induction elems with
  | nil => cases h
  | cons y xs ih =>
    cases h with
    | head => simp [jdepthList]
    | tail _ h => exact le_trans (ih h) (by simp [jdepthList])

/-- Entries of any value are at most as deep as the value itself. -/
theorem jdepth_entries_le {v : Json} {k : String} {x : Json}
    (h : (k, x) ∈ jsEntries v) : jdepth x ≤ jdepth v := by
  cases v with
  | obj fields =>
    simp only [jsEntries] at h
    exact le_trans (jdepthFields_le h) (by simp [jdepth])
  | arr elems =>
    simp only [jsEntries, List.mem_map] at h
    obtain ⟨⟨i, y⟩, hy, he⟩ := h
    cases he
    exact le_trans (jdepthList_le (snd_mem_of_mem_enum hy)) (by simp [jdepth])
  | str s =>
    simp only [jsEntries, List.mem_map] at h
    obtain ⟨⟨i, c⟩, _, he⟩ := h
    cases he
    simp [jdepth]
  | null => cases h
  | undef => cases h
  | bool b => cases h
  | num n => cases h

/-- Entries of an object- or array-typed value are strictly shallower. -/
theorem jdepth_entries_lt {v : Json} {k : String} {x : Json}
    (hobj : jsTypeofObject v = true) (htr : jsTruthy v = true)
    (h : (k, x) ∈ jsEntries v) : jdepth x < jdepth v := by
  cases v with
  | obj fields =>
    simp only [jsEntries] at h
    exact lt_of_le_of_lt (jdepthFields_le h) (by simp [jdepth])
  | arr elems =>
    simp only [jsEntries, List.mem_map] at h
    obtain ⟨⟨i, y⟩, hy, he⟩ := h
    cases he
    exact lt_of_le_of_lt (jdepthList_le (snd_mem_of_mem_enum hy)) (by simp [jdepth])
  | null => simp [jsTruthy] at htr
  | undef => cases h
  | bool b => simp [jsTypeofObject] at hobj
  | num n => simp [jsTypeofObject] at hobj
  | str s => simp [jsTypeofObject] at hobj

theorem lookupField_mem {key : String} {fields : List (String × Json)} {v : Json}
    (h : lookupField key fields = some v) : (key, v) ∈ fields := by
  unfold lookupField at h
  cases hf : fields.find? (fun p => p.1 == key) with
  | none => rw [hf] at h; cases h
  | some p =>
    rw [hf] at h
    have hp := List.find?_some hf
    have hm := List.mem_of_find?_eq_some hf
    simp only [Option.map_some'] at h
    cases h
    rcases p with ⟨k', v'⟩
    simp only [beq_iff_eq] at hp
    subst hp
    exact hm

theorem mem_of_mem_eraseField {key : String} {fields : List (String × Json)}
    {p : String × Json} (h : p ∈ eraseField key fields) : p ∈ fields :=
  List.mem_of_mem_filter h

theorem mem_of_mem_setField_ne {key : String} {v : Json} {fields : List (String × Json)}
    {p : String × Json} (h : p ∈ setField key v fields) (hne : p.1 ≠ key) : p ∈ fields := by
  unfold setField at h
  rcases List.mem_map.mp h with ⟨q, hq, he⟩
  by_cases hk : q.1 == key
  · rw [if_pos hk] at he
    subst he
    simp at hne
  · rw [if_neg hk] at he
    subst he
    exact hq

/-- The schema-cleaning transformation applied to each MCP tool input
schema before handing it to Gemini (cleanSchemaForGemini in
TodoistAIChat.ts).  Mirrors the JS code: non-objects (and falsy values,
in particular null and undefined) are returned unchanged; otherwise the
object is shallow-copied by spread, the keys schema-dollar and
additionalProperties are deleted, the value under the key properties
(when truthy) has each of its entries cleaned recursively, and the value
under the key items (when truthy) is cleaned recursively. -/
def cleanSchemaForGemini (schema : Json) : Json :=
  if hg : jsTruthy schema && jsTypeofObject schema then
    -- const cleaned = { ...schema }; delete cleaned.$schema; delete cleaned.additionalProperties;
    let cleaned0 := eraseField "additionalProperties" (eraseField "$schema" (jsEntries schema))
    -- if (cleaned.properties) { ... recursively clean every entry ... }
    let cleaned1 :=
      match hp : lookupField "properties" cleaned0 with
      | some v =>
        if htr : jsTruthy v then
          setField "properties"
            (Json.obj ((jsEntries v).attach.map
              (fun q => (q.val.1, cleanSchemaForGemini q.val.2)))) cleaned0
        else cleaned0
      | none => cleaned0
    -- if (cleaned.items) { cleaned.items = this.cleanSchemaForGemini(cleaned.items); }
    let cleaned2 :=
      match hi : lookupField "items" cleaned1 with
      | some v =>
        if htr : jsTruthy v then setField "items" (cleanSchemaForGemini v) cleaned1
        else cleaned1
      | none => cleaned1
    Json.obj cleaned2
  else
    schema
termination_by jdepth schema
decreasing_by
  · have hs := lookupField_mem hp
    have hs0 : ("properties", v) ∈ jsEntries schema :=
      mem_of_mem_eraseField (mem_of_mem_eraseField hs)
    have hv : jdepth v < jdepth schema := by
      simp only [Bool.and_eq_true] at hg
      exact jdepth_entries_lt hg.2 hg.1 hs0
    rcases q with ⟨⟨k, x⟩, hq⟩
    exact lt_of_le_of_lt (jdepth_entries_le hq) hv
  · have hs := lookupField_mem hi
    have hs1 : ("items", v) ∈ cleaned0 := by
      unfold cleaned1 at hs
      split at hs
      · split at hs
        · exact mem_of_mem_setField_ne hs (by simp)
        · exact hs
      · exact hs
    have hs0 : ("items", v) ∈ jsEntries schema :=
      mem_of_mem_eraseField (mem_of_mem_eraseField hs1)
    simp only [Bool.and_eq_true] at hg
    exact jdepth_entries_lt hg.2 hg.1 hs0

theorem lookupField_none_of_keys {key : String} {l : List (String × Json)}
    (h : ∀ p ∈ l, p.1 ≠ key) : lookupField key l = none := by
  unfold lookupField
  rw [List.find?_eq_none.mpr]
  · rfl
  · intro p hp
    simpa using h p hp

theorem lookupField_eraseField_self (key : String) (l : List (String × Json)) :
    lookupField key (eraseField key l) = none := by
  apply lookupField_none_of_keys
  intro p hp
  have := List.of_mem_filter hp
  simpa using this

theorem lookupField_cons (key : String) (p : String × Json) (t : List (String × Json)) :
    lookupField key (p :: t) = if p.1 = key then some p.2 else lookupField key t := by
  by_cases h : p.1 = key
  · unfold lookupField
    rw [List.find?_cons_of_pos _ (by simpa using h)]
    simp [h]
  · unfold lookupField
    rw [List.find?_cons_of_neg _ (by simpa using h)]
    simp [h]

theorem eraseField_cons (key : String) (p : String × Json) (t : List (String × Json)) :
    eraseField key (p :: t) =
      if p.1 = key then eraseField key t else p :: eraseField key t := by
  by_cases h : p.1 = key <;> simp [eraseField, h]

theorem setField_cons (key : String) (v : Json) (p : String × Json)
    (t : List (String × Json)) :
    setField key v (p :: t) =
      (if p.1 = key then (key, v) else p) :: setField key v t := by
  by_cases h : p.1 = key <;> simp [setField, h]

theorem lookupField_eraseField_ne {key k : String} (hne : key ≠ k) (l : List (String × Json)) :
    lookupField key (eraseField k l) = lookupField key l := by
  induction l with
  | nil => rfl
  | cons p t ih =>
    rw [eraseField_cons, lookupField_cons]
    by_cases hk : p.1 = k
    · rw [if_pos hk, ih, if_neg (by rw [hk]; exact Ne.symm hne)]
    · rw [if_neg hk, lookupField_cons]
      by_cases hpk : p.1 = key
      · rw [if_pos hpk, if_pos hpk]
      · rw [if_neg hpk, if_neg hpk, ih]

theorem lookupField_setField_ne {key k : String} (hne : key ≠ k) (v : Json)
    (l : List (String × Json)) :
    lookupField key (setField k v l) = lookupField key l := by
  induction l with
  | nil => rfl
  | cons p t ih =>
    rw [setField_cons, lookupField_cons, lookupField_cons]
    by_cases hk : p.1 = k
    · rw [if_pos hk]
      have : ((k, v) : String × Json).1 = key ↔ False := by
        simp [Ne.symm hne]
      rw [if_neg (by simpa using this.mp), ih, if_neg (by rw [hk]; exact Ne.symm hne)]
    · rw [if_neg hk]
      by_cases hpk : p.1 = key
      · rw [if_pos hpk, if_pos hpk]
      · rw [if_neg hpk, if_neg hpk, ih]

theorem lookupField_setField_self {key : String} {l : List (String × Json)} {w : Json}
    (h : lookupField key l = some w) (v : Json) :
    lookupField key (setField key v l) = some v := by
  induction l with
  | nil => cases h
  | cons p t ih =>
    rw [setField_cons, lookupField_cons]
    rw [lookupField_cons] at h
    by_cases hpk : p.1 = key
    · rw [if_pos hpk]
      simp
    · rw [if_neg hpk] at h
      rw [if_neg hpk, if_neg hpk]
      exact ih h

theorem keys_setField (key : String) (v : Json) (l : List (String × Json)) :
    (setField key v l).map Prod.fst = l.map Prod.fst := by
  induction l with
  | nil => rfl
  | cons p t ih =>
    rw [setField_cons]
    by_cases hpk : p.1 = key
    · simp [hpk, ih]
    · simp [hpk, ih]

theorem mem_setField_of_mem_ne {l : List (String × Json)} {p : String × Json}
    (h : p ∈ l) {key : String} (hne : p.1 ≠ key) (v : Json) : p ∈ setField key v l := by
  unfold setField
  refine List.mem_map.mpr ⟨p, h, ?_⟩
  simp [hne]

theorem mem_eraseField_of_mem_ne {l : List (String × Json)} {p : String × Json}
    (h : p ∈ l) {key : String} (hne : p.1 ≠ key) : p ∈ eraseField key l := by
  unfold eraseField
  exact List.mem_filter.mpr ⟨h, by simp [hne]⟩

theorem digitChar_isDigit {k : Nat} (h : k < 10) : (Nat.digitChar k).isDigit = true := by
  interval_cases k <;> decide

theorem toDigitsCore_digits :
    ∀ (fuel n : Nat) (ds : List Char), (∀ c ∈ ds, c.isDigit = true) →
      ∀ c ∈ Nat.toDigitsCore 10 fuel n ds, c.isDigit = true := by
  intro fuel
  induction fuel with
  | zero =>
    intro n ds hds c hc
    exact hds c hc
  | succ fuel ih =>
    intro n ds hds c hc
    unfold Nat.toDigitsCore at hc
    have hd : (Nat.digitChar (n % 10)).isDigit = true :=
      digitChar_isDigit (Nat.mod_lt _ (by omega))
    by_cases hz : n / 10 = 0
    · simp only [hz, if_pos] at hc
      rcases List.mem_cons.mp hc with h | h
      · subst h; exact hd
      · exact hds c h
    · simp only [hz, if_neg, if_false] at hc
      refine ih _ _ ?_ c hc
      intro c hcm
      rcases List.mem_cons.mp hcm with h | h
      · subst h; exact hd
      · exact hds c h

theorem natRepr_digits (n : Nat) : ∀ c ∈ (Nat.repr n).data, c.isDigit = true := by
  intro c hc
  have : (Nat.repr n).data = Nat.toDigitsCore 10 (n + 1) n [] := rfl
  rw [this] at hc
  exact toDigitsCore_digits (n + 1) n [] (by simp) c hc

theorem natRepr_ne_of_nonDigit {s : String} {c : Char} (hc : c ∈ s.data)
    (hnd : c.isDigit = false) (n : Nat) : Nat.repr n ≠ s := by
  intro he
  have := natRepr_digits n c (by rw [he]; exact hc)
  rw [hnd] at this
  cases this

/-- The recursively cleaned value stored back under the key properties:
every entry of the old value is cleaned and reassembled as an object
(mirroring the cleanedProperties accumulator in the source). -/
def cleanPropsValue (v : Json) : Json :=
  Json.obj ((jsEntries v).map (fun q => (q.1, cleanSchemaForGemini q.2)))

/-- The shallow copy of the input with the two metadata keys deleted. -/
def cleanedBase (schema : Json) : List (String × Json) :=
  eraseField "additionalProperties" (eraseField "$schema" (jsEntries schema))

/-- The conditional rewrite of the properties field. -/
def propStep (fs : List (String × Json)) : List (String × Json) :=
  match lookupField "properties" fs with
  | some v => if jsTruthy v then setField "properties" (cleanPropsValue v) fs else fs
  | none => fs

/-- The conditional rewrite of the items field. -/
def itemsStep (fs : List (String × Json)) : List (String × Json) :=
  match lookupField "items" fs with
  | some v => if jsTruthy v then setField "items" (cleanSchemaForGemini v) fs else fs
  | none => fs

theorem clean_not_object {schema : Json}
    (h : (jsTruthy schema && jsTypeofObject schema) = false) :
    cleanSchemaForGemini schema = schema := by
  unfold cleanSchemaForGemini
  rw [dif_neg]
  simp [h]

theorem propStep_match_eq (fs : List (String × Json)) :
    (match hp : lookupField "properties" fs with
      | some v =>
        if htr : jsTruthy v then
          setField "properties"
            (Json.obj ((jsEntries v).attach.map
              (fun q => (q.val.1, cleanSchemaForGemini q.val.2)))) fs
        else fs
      | none => fs)
    = propStep fs := by
  unfold propStep
  cases hcase : lookupField "properties" fs with
  | none => rfl
  | some v =>
    by_cases htr : jsTruthy v
    · simp only [htr, cleanPropsValue]
      simp only [dite_true, if_true]
      exact congrArg (fun x => setField "properties" (Json.obj x) fs)
        (List.attach_map_val (jsEntries v) (fun q => (q.1, cleanSchemaForGemini q.2)))
    · simp [htr]

theorem itemsStep_match_eq (fs : List (String × Json)) :
    (match hi : lookupField "items" fs with
      | some v =>
        if htr : jsTruthy v then setField "items" (cleanSchemaForGemini v) fs else fs
      | none => fs)
    = itemsStep fs := by
  unfold itemsStep
  cases hcase : lookupField "items" fs with
  | none => rfl
  | some v =>
    by_cases htr : jsTruthy v
    · simp [htr]
    · simp [htr]

theorem clean_object_eq {schema : Json}
    (h : (jsTruthy schema && jsTypeofObject schema) = true) :
    cleanSchemaForGemini schema = Json.obj (itemsStep (propStep (cleanedBase schema))) := by
  conv_lhs => rw [cleanSchemaForGemini]
  rw [dif_pos h]
  simp only [propStep_match_eq, itemsStep_match_eq, cleanedBase]
  rw [propStep_match_eq, itemsStep_match_eq]

theorem jsEntries_falsy {v : Json} (h : jsTruthy v = false) : jsEntries v = [] := by
  cases v with
  | str s =>
    have hs : s = "" := by simpa [jsTruthy] using h
    subst hs
    rfl
  | arr elems => simp [jsTruthy] at h
  | obj fields => simp [jsTruthy] at h
  | null => rfl
  | undef => rfl
  | bool b => rfl
  | num n => rfl

theorem lookup_cleanedBase_schema (schema : Json) :
    lookupField "$schema" (cleanedBase schema) = none := by
  unfold cleanedBase
  rw [lookupField_eraseField_ne (by decide), lookupField_eraseField_self]

theorem lookup_cleanedBase_addProps (schema : Json) :
    lookupField "additionalProperties" (cleanedBase schema) = none := by
  unfold cleanedBase
  rw [lookupField_eraseField_self]

theorem mem_cleanedBase {schema : Json} {p : String × Json}
    (h : p ∈ cleanedBase schema) : p ∈ jsEntries schema :=
  mem_of_mem_eraseField (mem_of_mem_eraseField h)

theorem lookup_propStep_ne {key : String} (hne : key ≠ "properties")
    (fs : List (String × Json)) : lookupField key (propStep fs) = lookupField key fs := by
  unfold propStep
  cases hcase : lookupField "properties" fs with
  | none => rfl
  | some v =>
    by_cases htr : jsTruthy v
    · simp [htr, lookupField_setField_ne hne]
    · simp [htr]

theorem lookup_itemsStep_ne {key : String} (hne : key ≠ "items")
    (fs : List (String × Json)) : lookupField key (itemsStep fs) = lookupField key fs := by
  unfold itemsStep
  cases hcase : lookupField "items" fs with
  | none => rfl
  | some v =>
    by_cases htr : jsTruthy v
    · simp [htr, lookupField_setField_ne hne]
    · simp [htr]

theorem mem_propStep_ne {fs : List (String × Json)} {p : String × Json}
    (h : p ∈ propStep fs) (hne : p.1 ≠ "properties") : p ∈ fs := by
  unfold propStep at h
  rcases hcase : lookupField "properties" fs with _ | v <;> rw [hcase] at h
  · exact h
  · by_cases htr : jsTruthy v
    · simp only [htr, if_true] at h
      exact mem_of_mem_setField_ne h hne
    · simp only [htr, if_false] at h
      exact h

theorem natRepr_ne_properties (n : Nat) : Nat.repr n ≠ "properties" :=
  natRepr_ne_of_nonDigit (s := "properties") (c := 'p') (by decide) (by decide) n

theorem natRepr_ne_items (n : Nat) : Nat.repr n ≠ "items" :=
  natRepr_ne_of_nonDigit (s := "items") (c := 'i') (by decide) (by decide) n

theorem cleanedBase_arr_key {xs : List Json} {p : String × Json}
    (hp : p ∈ cleanedBase (Json.arr xs)) : ∃ n, p.1 = Nat.repr n := by
  have h := mem_cleanedBase hp
  simp only [jsEntries, List.mem_map] at h
  obtain ⟨⟨i, y⟩, _, he⟩ := h
  exact ⟨i, by rw [← he]⟩

theorem lookup_cleanedBase_arr_props (xs : List Json) :
    lookupField "properties" (cleanedBase (Json.arr xs)) = none := by
  apply lookupField_none_of_keys
  intro p hp
  obtain ⟨n, hn⟩ := cleanedBase_arr_key hp
  rw [hn]
  exact natRepr_ne_properties n

theorem lookup_cleanedBase_arr_items (xs : List Json) :
    lookupField "items" (cleanedBase (Json.arr xs)) = none := by
  apply lookupField_none_of_keys
  intro p hp
  obtain ⟨n, hn⟩ := cleanedBase_arr_key hp
  rw [hn]
  exact natRepr_ne_items n

theorem clean_arr_eq (xs : List Json) :
    cleanSchemaForGemini (Json.arr xs) = Json.obj (cleanedBase (Json.arr xs)) := by
  rw [clean_object_eq (by rfl)]
  unfold itemsStep propStep
  rw [lookup_cleanedBase_arr_props, lookup_cleanedBase_arr_items]

/-- The schema nodes visited by the properties-and-items traversal used
by the spec: from an object node one may descend into any entry of the
value stored under the key properties, or into the value stored under
the key items. -/
inductive SchemaReach : Json → Json → Prop where
  | refl (x : Json) : SchemaReach x x
  | viaProp {fs : List (String × Json)} {p : Json} {k : String} {v y : Json} :
      lookupField "properties" fs = some p → (k, v) ∈ jsEntries p →
      SchemaReach v y → SchemaReach (Json.obj fs) y
  | viaItems {fs : List (String × Json)} {v y : Json} :
      lookupField "items" fs = some v → SchemaReach v y → SchemaReach (Json.obj fs) y

theorem clean_prim_eq {schema : Json} (h : jsTypeofObject schema = false ∨ schema = Json.null
    ∨ schema = Json.undef) : cleanSchemaForGemini schema = schema := by
  apply clean_not_object
  rcases h with h | h | h
  · rw [h, Bool.and_false]
  · rw [h]; rfl
  · rw [h]; rfl

theorem reach_obj_of_reach_falsy {v y : Json} {gs : List (String × Json)}
    (hreach : SchemaReach v y) (hy : y = Json.obj gs) (hfal : jsTruthy v = false) : False := by
  cases hreach with
  | refl =>
    subst hy
    simp [jsTruthy] at hfal
  | viaProp hlook hmem hrest => simp [jsTruthy] at hfal
  | viaItems hlook hrest => simp [jsTruthy] at hfal

theorem clean_reach_bannedFree :
    ∀ (n : Nat) (schema : Json), jdepth schema ≤ n →
      ∀ y, SchemaReach (cleanSchemaForGemini schema) y →
        ∀ gs, y = Json.obj gs →
          lookupField "$schema" gs = none ∧
            lookupField "additionalProperties" gs = none := by
  intro n
  induction n with
  | zero =>
    intro schema hd y hreach gs hy
    cases schema with
    | arr elems => simp [jdepth] at hd
    | obj fields => simp [jdepth] at hd
    | null =>
      rw [clean_prim_eq (Or.inr (Or.inl rfl))] at hreach
      cases hreach
      cases hy
    | undef =>
      rw [clean_prim_eq (Or.inr (Or.inr rfl))] at hreach
      cases hreach
      cases hy
    | bool b =>
      rw [@clean_prim_eq (Json.bool b) (Or.inl rfl)] at hreach
      cases hreach
      cases hy
    | num m =>
      rw [@clean_prim_eq (Json.num m) (Or.inl rfl)] at hreach
      cases hreach
      cases hy
    | str s =>
      rw [@clean_prim_eq (Json.str s) (Or.inl rfl)] at hreach
      cases hreach
      cases hy
  | succ n ih =>
    intro schema hd y hreach gs hy
    cases schema with
    | null =>
      rw [clean_prim_eq (Or.inr (Or.inl rfl))] at hreach
      cases hreach
      cases hy
    | undef =>
      rw [clean_prim_eq (Or.inr (Or.inr rfl))] at hreach
      cases hreach
      cases hy
    | bool b =>
      rw [@clean_prim_eq (Json.bool b) (Or.inl rfl)] at hreach
      cases hreach
      cases hy
    | num m =>
      rw [@clean_prim_eq (Json.num m) (Or.inl rfl)] at hreach
      cases hreach
      cases hy
    | str s =>
      rw [@clean_prim_eq (Json.str s) (Or.inl rfl)] at hreach
      cases hreach
      cases hy
    | arr elems =>
      rw [clean_arr_eq] at hreach
      cases hreach with
      | refl =>
        injection hy with hgs
        subst hgs
        exact ⟨lookup_cleanedBase_schema _, lookup_cleanedBase_addProps _⟩
      | viaProp hlook hmem hrest =>
        rw [lookup_cleanedBase_arr_props] at hlook
        cases hlook
      | viaItems hlook hrest =>
        rw [lookup_cleanedBase_arr_items] at hlook
        cases hlook
    | obj fields =>
      rw [clean_object_eq (by rfl)] at hreach
      cases hreach with
      | refl =>
        injection hy with hgs
        subst hgs
        constructor
        · rw [lookup_itemsStep_ne (by decide), lookup_propStep_ne (by decide),
            lookup_cleanedBase_schema]
        · rw [lookup_itemsStep_ne (by decide), lookup_propStep_ne (by decide),
            lookup_cleanedBase_addProps]
      | viaProp hlook hmem hrest =>
        rw [lookup_itemsStep_ne (by decide)] at hlook
        rename_i p k w
        unfold propStep at hlook
        cases hcase : lookupField "properties" (cleanedBase (Json.obj fields)) with
        | none =>
          rw [hcase] at hlook
          simp only [hcase] at hlook
          cases hlook
        | some v =>
          rw [hcase] at hlook
          have hvdepth : jdepth v < jdepth (Json.obj fields) :=
            jdepth_entries_lt (by rfl) (by rfl) (mem_cleanedBase (lookupField_mem hcase))
          by_cases htr : jsTruthy v
          · simp only [htr, if_true] at hlook
            rw [lookupField_setField_self hcase] at hlook
            injection hlook with hp
            subst hp
            unfold cleanPropsValue at hmem
            simp only [jsEntries, List.mem_map] at hmem
            obtain ⟨⟨k0, x⟩, hx, he⟩ := hmem
            have hw : w = cleanSchemaForGemini x := by
              have := congrArg Prod.snd he
              simpa using this.symm
            rw [hw] at hrest
            have hxdepth : jdepth x ≤ n := by
              have h1 : jdepth x ≤ jdepth v := jdepth_entries_le hx
              simp only [jdepth] at hd hvdepth
              omega
            exact ih x hxdepth y hrest gs hy
          · simp only [htr] at hlook
            rw [if_neg (by simp), hcase] at hlook
            injection hlook with hp
            subst hp
            rw [jsEntries_falsy (by simpa using htr)] at hmem
            cases hmem
      | viaItems hlook hrest =>
        rename_i w
        unfold itemsStep at hlook
        cases hcase : lookupField "items" (propStep (cleanedBase (Json.obj fields))) with
        | none =>
          rw [hcase] at hlook
          simp only [hcase] at hlook
          cases hlook
        | some v =>
          rw [hcase] at hlook
          have hvmem : ("items", v) ∈ cleanedBase (Json.obj fields) :=
            mem_propStep_ne (lookupField_mem hcase) (by simp)
          have hvdepth : jdepth v < jdepth (Json.obj fields) :=
            jdepth_entries_lt (by rfl) (by rfl) (mem_cleanedBase hvmem)
          by_cases htr : jsTruthy v
          · simp only [htr, if_true] at hlook
            rw [lookupField_setField_self hcase] at hlook
            injection hlook with hp
            subst hp
            have hvdn : jdepth v ≤ n := by
              simp only [jdepth] at hd hvdepth
              omega
            exact ih v hvdn y hrest gs hy
          · simp only [htr] at hlook
            rw [if_neg (by simp), hcase] at hlook
            injection hlook with hp
            subst hp
            exact (reach_obj_of_reach_falsy hrest hy (by simpa using htr)).elim

theorem keys_propStep (fs : List (String × Json)) :
    (propStep fs).map Prod.fst = fs.map Prod.fst := by
  unfold propStep
  cases hcase : lookupField "properties" fs with
  | none => rfl
  | some v =>
    by_cases htr : jsTruthy v
    · simp [htr, keys_setField]
    · simp [htr]

theorem keys_itemsStep (fs : List (String × Json)) :
    (itemsStep fs).map Prod.fst = fs.map Prod.fst := by
  unfold itemsStep
  cases hcase : lookupField "items" fs with
  | none => rfl
  | some v =>
    by_cases htr : jsTruthy v
    · simp [htr, keys_setField]
    · simp [htr]

theorem mem_propStep_of_mem_ne {fs : List (String × Json)} {p : String × Json}
    (h : p ∈ fs) (hne : p.1 ≠ "properties") : p ∈ propStep fs := by
  unfold propStep
  cases hcase : lookupField "properties" fs with
  | none => exact h
  | some v =>
    by_cases htr : jsTruthy v
    · simp only [htr, if_true]
      exact mem_setField_of_mem_ne h hne _
    · simp only [htr, if_false]
      exact h

theorem mem_itemsStep_of_mem_ne {fs : List (String × Json)} {p : String × Json}
    (h : p ∈ fs) (hne : p.1 ≠ "items") : p ∈ itemsStep fs := by
  unfold itemsStep
  cases hcase : lookupField "items" fs with
  | none => exact h
  | some v =>
    by_cases htr : jsTruthy v
    · simp only [htr, if_true]
      exact mem_setField_of_mem_ne h hne _
    · simp only [htr, if_false]
      exact h

theorem clean_obj_preserves (fields : List (String × Json)) :
    ∃ gs, cleanSchemaForGemini (Json.obj fields) = Json.obj gs
      ∧ gs.map Prod.fst
          = (eraseField "additionalProperties" (eraseField "$schema" fields)).map Prod.fst
      ∧ ∀ p : String × Json, p ∈ fields → p.1 ≠ "$schema" → p.1 ≠ "additionalProperties" →
          p.1 ≠ "properties" → p.1 ≠ "items" → p ∈ gs := by
  refine ⟨itemsStep (propStep (cleanedBase (Json.obj fields))), clean_object_eq (by rfl), ?_, ?_⟩
  · rw [keys_itemsStep, keys_propStep]
    rfl
  · intro p hp h1 h2 h3 h4
    have hbase : p ∈ cleanedBase (Json.obj fields) :=
      mem_eraseField_of_mem_ne (mem_eraseField_of_mem_ne hp h1) h2
    exact mem_itemsStep_of_mem_ne (mem_propStep_of_mem_ne hbase h3) h4

/-- C6: the adapter (cleanSchemaForGemini) returns a schema in which the
schema-version marker and the additional-properties flag are absent at
every nesting depth reachable by recursing into properties (per key) and
items, while all other fields and the structure at those depths are
preserved; non-object, null, or undefined input is returned unchanged. -/
theorem c6_cleanSchema_strips_metadata :
    (∀ schema : Json,
        jsTypeofObject schema = false ∨ schema = Json.null ∨ schema = Json.undef →
          cleanSchemaForGemini schema = schema)
    ∧ (∀ schema y : Json, SchemaReach (cleanSchemaForGemini schema) y →
          ∀ gs : List (String × Json), y = Json.obj gs →
            lookupField "$schema" gs = none ∧
              lookupField "additionalProperties" gs = none)
    ∧ (∀ fields : List (String × Json),
          ∃ gs, cleanSchemaForGemini (Json.obj fields) = Json.obj gs
            ∧ gs.map Prod.fst
                = (eraseField "additionalProperties"
                    (eraseField "$schema" fields)).map Prod.fst
            ∧ ∀ p : String × Json, p ∈ fields → p.1 ≠ "$schema" →
                p.1 ≠ "additionalProperties" → p.1 ≠ "properties" →
                p.1 ≠ "items" → p ∈ gs) :=
  ⟨fun _ h => clean_prim_eq h,
   fun schema y hreach gs hy =>
     clean_reach_bannedFree (jdepth schema) schema le_rfl y hreach gs hy,
   clean_obj_preserves⟩

/-- Witness for C6 at concrete inputs: a primitive passes through
unchanged, and a concrete object keeps its ordinary field while losing
the metadata field. -/
theorem c6_cleanSchema_strips_metadata_witness :
    cleanSchemaForGemini (Json.str "x") = Json.str "x"
    ∧ (∃ gs, cleanSchemaForGemini
          (Json.obj [("$schema", Json.str "draft"), ("type", Json.str "object")])
        = Json.obj gs
      ∧ gs.map Prod.fst = ["type"]
      ∧ ("type", Json.str "object") ∈ gs) := by
  constructor
  · exact c6_cleanSchema_strips_metadata.1 (Json.str "x") (Or.inl rfl)
  · obtain ⟨gs, h1, h2, h3⟩ := c6_cleanSchema_strips_metadata.2.2
      [("$schema", Json.str "draft"), ("type", Json.str "object")]
    refine ⟨gs, h1, ?_, ?_⟩
    · rw [h2]
      rfl
    · exact h3 ("type", Json.str "object") (by simp) (by decide) (by decide)
        (by decide) (by decide)

/-- Whether the first list is an initial segment of the second. -/
def leadsWithChars : List Char → List Char → Bool
  | [], _ => true
  | _ :: _, [] => false
  | a :: as, b :: bs => a == b && leadsWithChars as bs

/-- Whether the first list occurs contiguously inside the second. -/
def occursInChars (needle : List Char) : List Char → Bool
  | [] => needle.isEmpty
  | c :: rest => leadsWithChars needle (c :: rest) || occursInChars needle rest

/-- The JS String.prototype.includes test (case-sensitive substring). -/
def strIncludes (hay sub : String) : Bool :=
  occursInChars sub.data hay.data

/-- Connection-error classification used by callToolWithRetry: the error
message contains one of the three connection-failure signatures. -/
def isConnectionError (msg : String) : Bool :=
  strIncludes msg "No transport found for sessionId" ||
  strIncludes msg "HTTP 404" ||
  strIncludes msg "connection"

/-- Observable outcome of one callToolWithRetry run: the value returned
or the error propagated, the number of invocation attempts made, and the
number of reconnect attempts made. -/
structure RetryTrace (α : Type) where
  result : Except String α
  attempts : Nat
  reconnects : Nat

/-- The wrapped error text built when a reconnect fails on the final
attempt of callToolWithRetry. -/
def retryFailureMessage (toolName : String) (maxRetries : Nat) (msg : String) : String :=
  "Failed to execute " ++ toolName ++ " after " ++ Nat.repr (maxRetries + 1)
    ++ " attempts: " ++ msg

/-- The wrapped error text thrown after the loop of callToolWithRetry. -/
def retryExhaustedMessage (toolName : String) (maxRetries : Nat) : String :=
  "Failed to execute " ++ toolName ++ " after " ++ Nat.repr (maxRetries + 1) ++ " attempts"

/-- The retry loop of callToolWithRetry, one recursive step per loop
iteration.  The environment supplies the outcome of the i-th invocation
attempt (invoke i covers both the client-missing check and the actual
callTool) and the outcome of the j-th reconnect attempt (reconnectMCP).
Mirrors TodoistAIChat.ts: an ok result returns at once; an error that is
connection-class while attempts remain triggers a reconnect attempt and
continues the loop whether or not the reconnect succeeded (the wrapped
failure is only built when the reconnect fails on the final attempt,
which the guard makes unreachable); any other error is re-thrown raw. -/
def retryGo {α : Type} (toolName : String) (maxRetries : Nat)
    (invoke : Nat → Except String α) (reconnect : Nat → Except String Unit)
    (attempt reconnects : Nat) : RetryTrace α :=
  if h0 : attempt ≤ maxRetries then
    match invoke attempt with
    | .ok r => ⟨.ok r, attempt + 1, reconnects⟩
    | .error msg =>
      if h1 : isConnectionError msg ∧ attempt < maxRetries then
        match reconnect reconnects with
        | .ok _ => retryGo toolName maxRetries invoke reconnect (attempt + 1) (reconnects + 1)
        | .error _ =>
          if h2 : attempt = maxRetries then
            ⟨.error (retryFailureMessage toolName maxRetries msg), attempt + 1, reconnects + 1⟩
          else
            retryGo toolName maxRetries invoke reconnect (attempt + 1) (reconnects + 1)
      else
        ⟨.error msg, attempt + 1, reconnects⟩
  else
    ⟨.error (retryExhaustedMessage toolName maxRetries), attempt, reconnects⟩
termination_by maxRetries + 1 - attempt
decreasing_by
  all_goals omega

/-- callToolWithRetry of TodoistAIChat.ts (the source default for
maxRetries is 2, giving three invocation attempts). -/
def callToolWithRetry {α : Type} (toolName : String) (args : Json) (maxRetries : Nat)
    (invoke : Nat → Except String α) (reconnect : Nat → Except String Unit) : RetryTrace α :=
  retryGo toolName maxRetries invoke reconnect 0 0

theorem retryGo_ok {α : Type} (toolName : String) (maxRetries : Nat)
    (invoke : Nat → Except String α) (reconnect : Nat → Except String Unit) :
    ∀ (k attempt reconnects : Nat) (msgs : Nat → String) (r : α),
      attempt + k ≤ maxRetries →
      (∀ i, i < k → invoke (attempt + i) = .error (msgs i)
        ∧ isConnectionError (msgs i) = true) →
      (∀ j, j < k → reconnect (reconnects + j) = .ok ()) →
      invoke (attempt + k) = .ok r →
      retryGo toolName maxRetries invoke reconnect attempt reconnects
        = ⟨.ok r, attempt + k + 1, reconnects + k⟩ := by
  intro k
  induction k with
  | zero =>
    intro attempt reconnects msgs r hle hfail hrec hok
    rw [Nat.add_zero] at hle hok
    unfold retryGo
    rw [dif_pos (show attempt ≤ maxRetries by omega)]
    simp [hok]
  | succ k ih =>
    intro attempt reconnects msgs r hle hfail hrec hok
    have h0 := hfail 0 (Nat.succ_pos k)
    rw [Nat.add_zero] at h0
    have hr0 := hrec 0 (Nat.succ_pos k)
    rw [Nat.add_zero] at hr0
    have hrest := ih (attempt + 1) (reconnects + 1) (fun i => msgs (i + 1)) r
      (by omega)
      (fun i hi => by
        have h := hfail (i + 1) (by omega)
        rwa [show attempt + (i + 1) = attempt + 1 + i by omega] at h)
      (fun j hj => by
        have h := hrec (j + 1) (by omega)
        rwa [show reconnects + (j + 1) = reconnects + 1 + j by omega] at h)
      (by rwa [show attempt + (k + 1) = attempt + 1 + k by omega] at hok)
    unfold retryGo
    rw [dif_pos (show attempt ≤ maxRetries by omega)]
    simp only [h0.1]
    rw [dif_pos (show (isConnectionError (msgs 0) = true ∧ attempt < maxRetries)
      from ⟨h0.2, by omega⟩)]
    simp only [hr0]
    rw [hrest]
    simp only [RetryTrace.mk.injEq]
    exact ⟨trivial, by omega, by omega⟩

/-- C1: for every tool name, arguments, and maxAttempts N = maxRetries + 1
(N at least 1): if the first k - 1 invocation attempts (k at most N) each
fail with a connection-class error, every triggered reconnect succeeds,
and the k-th invocation attempt succeeds, then callToolWithRetry returns
the k-th attempt result, performs exactly k - 1 reconnects, and makes at
most N invocation attempts in total (it makes exactly k). -/
theorem c1_retry_success_after_connection_failures {α : Type}
    (toolName : String) (args : Json) (maxRetries : Nat)
    (invoke : Nat → Except String α) (reconnect : Nat → Except String Unit)
    (k : Nat) (msgs : Nat → String) (r : α)
    (hk1 : 1 ≤ k) (hkN : k ≤ maxRetries + 1)
    (hfail : ∀ i, i < k - 1 → invoke i = Except.error (msgs i)
      ∧ isConnectionError (msgs i) = true)
    (hrec : ∀ j, j < k - 1 → reconnect j = Except.ok ())
    (hok : invoke (k - 1) = Except.ok r) :
    callToolWithRetry toolName args maxRetries invoke reconnect
        = ⟨Except.ok r, k, k - 1⟩
      ∧ k ≤ maxRetries + 1 := by
  refine ⟨?_, hkN⟩
  unfold callToolWithRetry
  have h := retryGo_ok toolName maxRetries invoke reconnect (k - 1) 0 0 msgs r
    (by omega)
    (fun i hi => by simpa using hfail i hi)
    (fun j hj => by simpa using hrec j hj)
    (by simpa using hok)
  rw [h]
  simp only [RetryTrace.mk.injEq]
  exact ⟨trivial, by omega, by omega⟩

/-- Witness for C1: with maxRetries = 2 (three attempts allowed), one
connection-class failure followed by one successful reconnect and a
successful second attempt yields the second attempt result with exactly
one reconnect and two attempts. -/
theorem c1_retry_success_witness :
    callToolWithRetry "find-tasks" (Json.obj []) 2
        (fun i => if i = 0 then Except.error "connection" else Except.ok (42 : Nat))
        (fun _ => Except.ok ())
      = ⟨Except.ok 42, 2, 1⟩ ∧ (2 : Nat) ≤ 2 + 1 :=
  c1_retry_success_after_connection_failures "find-tasks" (Json.obj []) 2
    (fun i => if i = 0 then Except.error "connection" else Except.ok (42 : Nat))
    (fun _ => Except.ok ()) 2 (fun _ => "connection") 42
    (by omega) (by omega)
    (fun i hi => by
      interval_cases i
      exact ⟨rfl, by decide⟩)
    (fun j hj => by
      interval_cases j
      rfl)
    rfl

/-- C2: a first-attempt error whose message matches none of the
connection-failure signatures is propagated immediately and raw, with
exactly one invocation attempt and zero reconnects, for any maxRetries. -/
theorem c2_nonconnection_error_propagates {α : Type}
    (toolName : String) (args : Json) (maxRetries : Nat)
    (invoke : Nat → Except String α) (reconnect : Nat → Except String Unit)
    (msg : String)
    (herr : invoke 0 = Except.error msg) (hnc : isConnectionError msg = false) :
    callToolWithRetry toolName args maxRetries invoke reconnect
      = ⟨Except.error msg, 1, 0⟩ := by
  unfold callToolWithRetry retryGo
  rw [dif_pos (Nat.zero_le _)]
  simp only [herr]
  rw [dif_neg (by simp [hnc])]

/-- Witness for C2: a domain-level error message is propagated raw after
one attempt and no reconnect. -/
theorem c2_nonconnection_error_witness :
    callToolWithRetry "add-task" (Json.obj []) 2
        (fun _ => Except.error "invalid arguments" : Nat → Except String Nat)
        (fun _ => Except.ok ())
      = ⟨Except.error "invalid arguments", 1, 0⟩
    ∧ isConnectionError "invalid arguments" = false :=
  ⟨c2_nonconnection_error_propagates "add-task" (Json.obj []) 2 _ _
      "invalid arguments" rfl (by decide),
   by decide⟩

theorem retryGo_allConn {α : Type} (toolName : String) (maxRetries : Nat)
    (invoke : Nat → Except String α) (reconnect : Nat → Except String Unit) :
    ∀ (d attempt reconnects : Nat) (msgs : Nat → String),
      attempt + d = maxRetries →
      (∀ i, i ≤ d → invoke (attempt + i) = Except.error (msgs i)
        ∧ isConnectionError (msgs i) = true) →
      (∀ j, j < d → reconnect (reconnects + j) = Except.ok ()) →
      retryGo toolName maxRetries invoke reconnect attempt reconnects
        = ⟨Except.error (msgs d), maxRetries + 1, reconnects + d⟩ := by
  intro d
  induction d with
  | zero =>
    intro attempt reconnects msgs heq hfail hrec
    have h0 := hfail 0 (le_refl 0)
    rw [Nat.add_zero] at h0
    unfold retryGo
    rw [dif_pos (by omega)]
    simp only [h0.1]
    rw [dif_neg (fun hcon => absurd hcon.2 (by omega))]
    simp only [RetryTrace.mk.injEq]
    exact ⟨trivial, by omega, by omega⟩
  | succ d ihd =>
    intro attempt reconnects msgs heq hfail hrec
    have h0 := hfail 0 (Nat.zero_le _)
    rw [Nat.add_zero] at h0
    have hr0 := hrec 0 (Nat.succ_pos d)
    rw [Nat.add_zero] at hr0
    have hrest := ihd (attempt + 1) (reconnects + 1) (fun i => msgs (i + 1))
      (by omega)
      (fun i hi => by
        have h := hfail (i + 1) (by omega)
        rwa [show attempt + (i + 1) = attempt + 1 + i by omega] at h)
      (fun j hj => by
        have h := hrec (j + 1) (by omega)
        rwa [show reconnects + (j + 1) = reconnects + 1 + j by omega] at h)
    unfold retryGo
    rw [dif_pos (by omega)]
    simp only [h0.1]
    rw [dif_pos (show (isConnectionError (msgs 0) = true ∧ attempt < maxRetries)
      from ⟨h0.2, by omega⟩)]
    simp only [hr0]
    rw [hrest]
    rw [show reconnects + 1 + d = reconnects + (d + 1) from by omega]

/-- Counterexample to C3 as stated: with maxRetries = 2 (three attempts)
and every attempt failing with the connection-class message, the loop
propagates the raw final-attempt error.  The propagated message names
neither the tool nor the total attempt count and differs from the
wrapped failure message, because the final attempt falls into the
re-throw-raw branch (the guard attempt < maxRetries is false there). -/
theorem c3_counterexample :
    (callToolWithRetry (α := Nat) "find-tasks-by-date" (Json.obj []) 2
        (fun _ => Except.error "connection") (fun _ => Except.ok ()))
      = ⟨Except.error "connection", 3, 2⟩
    ∧ strIncludes "connection" "find-tasks-by-date" = false
    ∧ strIncludes "connection" "3" = false
    ∧ "connection" ≠ retryFailureMessage "find-tasks-by-date" 2 "connection" := by
  refine ⟨?_, by decide, by decide, by decide⟩
  unfold callToolWithRetry
  have h := retryGo_allConn (α := Nat) "find-tasks-by-date" 2
    (fun _ => Except.error "connection") (fun _ => Except.ok ()) 2 0 0
    (fun _ => "connection") (by omega)
    (fun i _ => ⟨rfl, show isConnectionError "connection" = true by decide⟩)
    (fun j _ => rfl)
  simpa using h

/-- C3 (amended): if every one of the N = maxRetries + 1 invocation
attempts fails with a connection-class error (reconnects succeeding),
callToolWithRetry makes exactly N attempts and N - 1 reconnects and
propagates the raw final-attempt error unchanged; the wrapped error
naming the tool and the attempt count is never produced on this path. -/
theorem c3_allConn_propagates_raw_final_error {α : Type}
    (toolName : String) (args : Json) (maxRetries : Nat)
    (invoke : Nat → Except String α) (reconnect : Nat → Except String Unit)
    (msgs : Nat → String)
    (hfail : ∀ i, i ≤ maxRetries → invoke i = Except.error (msgs i)
      ∧ isConnectionError (msgs i) = true)
    (hrec : ∀ j, j < maxRetries → reconnect j = Except.ok ()) :
    callToolWithRetry toolName args maxRetries invoke reconnect
      = ⟨Except.error (msgs maxRetries), maxRetries + 1, maxRetries⟩ := by
  unfold callToolWithRetry
  have h := retryGo_allConn toolName maxRetries invoke reconnect maxRetries 0 0 msgs
    (by omega)
    (fun i hi => by simpa using hfail i hi)
    (fun j hj => by simpa using hrec j hj)
  simpa using h

/-- Witness for the amended C3 at maxRetries = 1: two connection-class
failures, one reconnect, raw final error propagated. -/
theorem c3_allConn_witness :
    callToolWithRetry (α := Nat) "get-overview" (Json.obj []) 1
        (fun _ => Except.error "HTTP 404 Not Found") (fun _ => Except.ok ())
      = ⟨Except.error "HTTP 404 Not Found", 2, 1⟩ :=
  c3_allConn_propagates_raw_final_error "get-overview" (Json.obj []) 1
    (fun _ => Except.error "HTTP 404 Not Found") (fun _ => Except.ok ())
    (fun _ => "HTTP 404 Not Found")
    (fun i _ => ⟨rfl, show isConnectionError "HTTP 404 Not Found" = true by decide⟩)
    (fun j _ => rfl)

/-- Role of a conversation turn as stored in conversationHistory. -/
inductive Role where
  | user
  | model
deriving DecidableEq, Repr

/-- One stored turn: role plus the text parts pushed with it (the source
always pushes a single-element parts array). -/
structure ConvTurn where
  role : Role
  parts : List String
deriving DecidableEq, Repr

/-- An MCP tool descriptor as cached in availableTools. -/
structure MCPTool where
  name : String
  description : String
  inputSchema : Json

/-- A Gemini function declaration built from an MCP tool. -/
structure FunctionDeclaration where
  name : String
  description : String
  parameters : Json

/-- The cached multi-turn Gemini chat session (currentChat).  A session
created by startChat carries the system instruction and starts with no
seeded context. -/
structure ChatSession where
  systemInstruction : String
  seededHistory : List ConvTurn

/-- Creation of a fresh chat session (modelWithTools.startChat). -/
def startChatSession (systemInstruction : String) : ChatSession :=
  ⟨systemInstruction, []⟩

/-- The mutable state of TodoistAIChat relevant to the conversation
loop: the cached tool catalog, the conversation history, the cached chat
session and the reentrancy flag. -/
structure ChatState where
  availableTools : List MCPTool
  conversationHistory : List ConvTurn
  currentChat : Option ChatSession
  isProcessingRequest : Bool

/-- A model-requested tool call (name plus args, args possibly absent). -/
structure FunctionCall where
  name : String
  args : Json

/-- Content of a function response: either the tool result content or
the synthesized error description string. -/
inductive RespContent (α : Type) where
  | value (a : α)
  | errText (s : String)
deriving DecidableEq

/-- One entry of the functionResponses list: the payload relayed to the
model for one executed tool call. -/
structure FunctionResponse (α : Type) where
  name : String
  content : RespContent α
deriving DecidableEq

/-- A model response: extractable text and the requested tool calls
(an absent functionCalls list is modelled as the empty list). -/
structure GenResult where
  text : String
  functionCalls : List FunctionCall

/-- Result object of mcpClient.callTool: carries a content field. -/
structure ToolCallOutput (α : Type) where
  content : α

/-- Per-turn environment: the outcomes of the external calls the turn
makes.  systemPrompt stands for createSystemPrompt() (whose value
depends on the tool list and the current date); firstResponse is the
outcome of currentChat.sendMessage(userInput); followUpResponse is the
outcome of chat.sendMessage(message) for the function-response message
actually sent; invokeTool is the outcome of one tool invocation (the
whole callToolWithRetry call) keyed by tool name and arguments. -/
structure TurnEnv (α : Type) where
  systemPrompt : String
  firstResponse : Except String GenResult
  followUpResponse : List (FunctionResponse α) → Except String GenResult
  invokeTool : String → Json → Except String (ToolCallOutput α)

/-- The JS String.prototype.trim operation: leading and trailing
whitespace removed (modelled over the character list, structurally
computable). -/
def jsTrim (s : String) : String :=
  String.mk (((s.data.dropWhile Char.isWhitespace).reverse.dropWhile
    Char.isWhitespace).reverse)

/-- The JS String.prototype.toLowerCase operation (ASCII lowering, as
used for the reserved command comparison). -/
def jsToLower (s : String) : String :=
  String.mk (s.data.map Char.toLower)

/-- The JS expression x || d. -/
def jsOr (x dflt : Json) : Json :=
  if jsTruthy x then x else dflt

/-- Append one turn with a single text part to the history. -/
def pushTurn (st : ChatState) (role : Role) (text : String) : ChatState :=
  { st with conversationHistory := st.conversationHistory ++ [⟨role, [text]⟩] }

/-- The function-response collection loop of handleModelResponse: each
requested call is executed via callToolWithRetry (abstracted by
invokeTool); a successful call contributes its content, a failed call
contributes the synthesized error description instead of aborting the
batch. -/
def buildFunctionResponses {α : Type} (calls : List FunctionCall)
    (invokeTool : String → Json → Except String (ToolCallOutput α)) :
    List (FunctionResponse α) :=
  calls.map (fun c =>
    match invokeTool c.name (jsOr c.args (Json.obj [])) with
    | .ok out => ⟨c.name, RespContent.value out.content⟩
    | .error msg => ⟨c.name, RespContent.errText ("Error: " ++ msg)⟩)

/-- The follow-up message sent back to the model by handleModelResponse:
a one-element array built from functionResponses[0] only (the source
indexes the first entry; it is only reached with a nonempty batch). -/
def followUpMessage {α : Type} (frs : List (FunctionResponse α)) :
    List (FunctionResponse α) :=
  match frs with
  | [] => []
  | r :: _ => [r]

/-- handleModelResponse of TodoistAIChat.ts, restricted to its effect on
state: with no function calls it only displays text (state unchanged);
otherwise it executes every call, sends the follow-up message, and on a
nonempty follow-up text appends a model turn.  A thrown error from the
follow-up sendMessage propagates to the caller. -/
def handleModelResponse {α : Type} (st : ChatState) (env : TurnEnv α)
    (result : GenResult) : Except String ChatState :=
  if result.functionCalls.isEmpty then
    Except.ok st
  else
    match env.followUpResponse
        (followUpMessage (buildFunctionResponses result.functionCalls env.invokeTool)) with
    | .error e => Except.error e
    | .ok fu =>
      Except.ok (if fu.text.trim = "" then st else pushTurn st Role.model fu.text)

/-- processUserInput of TodoistAIChat.ts as a state transition: builds
the function declarations, lazily creates the chat session, appends the
user turn, sends the message, appends the initial model turn when its
text is nonblank, and runs handleModelResponse; any error communicating
with Gemini is caught and ends the turn with the state as it stood. -/
def processUserInput {α : Type} (st : ChatState) (env : TurnEnv α)
    (userInput : String) : ChatState :=
  let _functionDeclarations := st.availableTools.map (fun t =>
    FunctionDeclaration.mk t.name t.description (cleanSchemaForGemini t.inputSchema))
  let st1 := match st.currentChat with
    | none => { st with currentChat := some (startChatSession env.systemPrompt) }
    | some _ => st
  let st2 := pushTurn st1 Role.user userInput
  match env.firstResponse with
  | .error _ => st2
  | .ok result =>
    let st3 := if result.text.trim = "" then st2 else pushTurn st2 Role.model result.text
    match handleModelResponse st3 env result with
    | .error _ => st3
    | .ok st4 => st4

/-- clearConversationHistory of TodoistAIChat.ts: empties the history
and drops the cached chat session, together. -/
def clearConversationHistory (st : ChatState) : ChatState :=
  { st with conversationHistory := [], currentChat := none }

/-- What the console line handler decides to do for one input line. -/
inductive LineAction where
  | quitApp
  | promptOnly
  | showHistory
  | clearNotice
  | runTest
  | busyNotice
  | processed
deriving DecidableEq

/-- The line handler installed by startChat: trims the input, handles
the reserved commands (exit/quit, empty, history, clear, test) before
the reentrancy guard, rejects free text while a request is in flight,
and otherwise processes the input with the flag set and cleared again
afterwards (the finally). -/
def onLine {α : Type} (st : ChatState) (env : TurnEnv α) (input : String) :
    ChatState × LineAction :=
  let userInput := jsTrim input
  if jsToLower userInput = "exit" ∨ jsToLower userInput = "quit" then
    (st, LineAction.quitApp)
  else if userInput = "" then
    (st, LineAction.promptOnly)
  else if jsToLower userInput = "history" then
    (st, LineAction.showHistory)
  else if jsToLower userInput = "clear" then
    (clearConversationHistory st, LineAction.clearNotice)
  else if jsToLower userInput = "test" then
    (st, LineAction.runTest)
  else if st.isProcessingRequest then
    (st, LineAction.busyNotice)
  else
    let st1 := { st with isProcessingRequest := true }
    let st2 := processUserInput st1 env userInput
    ({ st2 with isProcessingRequest := false }, LineAction.processed)

/-- An input line that reaches the orchestrator as a user turn: nonempty
after trimming and none of the reserved commands. -/
def FreeTextInput (input : String) : Prop :=
  jsTrim input ≠ ""
  ∧ jsToLower (jsTrim input) ≠ "exit" ∧ jsToLower (jsTrim input) ≠ "quit"
  ∧ jsToLower (jsTrim input) ≠ "history" ∧ jsToLower (jsTrim input) ≠ "clear"
  ∧ jsToLower (jsTrim input) ≠ "test"

instance (input : String) : Decidable (FreeTextInput input) := by
  unfold FreeTextInput
  infer_instance

theorem buildFunctionResponses_length {α : Type} (calls : List FunctionCall)
    (invokeTool : String → Json → Except String (ToolCallOutput α)) :
    (buildFunctionResponses calls invokeTool).length = calls.length := by
  simp [buildFunctionResponses]

theorem buildFunctionResponses_names {α : Type} (calls : List FunctionCall)
    (invokeTool : String → Json → Except String (ToolCallOutput α)) :
    (buildFunctionResponses calls invokeTool).map FunctionResponse.name
      = calls.map FunctionCall.name := by
  induction calls with
  | nil => rfl
  | cons c t ih =>
    simp only [buildFunctionResponses, List.map_cons] at ih ⊢
    cases h : invokeTool c.name (jsOr c.args (Json.obj [])) <;> simp [ih]

theorem followUpMessage_eq_take {α : Type} (frs : List (FunctionResponse α)) :
    followUpMessage frs = frs.take 1 := by
  cases frs with
  | nil => rfl
  | cons r t => simp [followUpMessage]

/-- C4: when the model requests two or more tool calls in one response,
the handler executes every request and collects one result per call (one
response entry per call, names in order), but the follow-up message sent
back to the model is exactly the first collected result; the results of
all later calls are not relayed. -/
theorem c4_only_first_result_relayed {α : Type}
    (calls : List FunctionCall)
    (invokeTool : String → Json → Except String (ToolCallOutput α))
    (h2 : 2 ≤ calls.length) :
    (buildFunctionResponses calls invokeTool).length = calls.length
    ∧ (buildFunctionResponses calls invokeTool).map FunctionResponse.name
        = calls.map FunctionCall.name
    ∧ followUpMessage (buildFunctionResponses calls invokeTool)
        = (buildFunctionResponses calls invokeTool).take 1
    ∧ (followUpMessage (buildFunctionResponses calls invokeTool)).length = 1 := by
  refine ⟨buildFunctionResponses_length calls invokeTool,
    buildFunctionResponses_names calls invokeTool,
    followUpMessage_eq_take _, ?_⟩
  rw [followUpMessage_eq_take, List.length_take, buildFunctionResponses_length]
  omega

/-- Witness for C4: two calls, both succeeding; two results collected,
one-element follow-up message. -/
theorem c4_only_first_result_relayed_witness :
    (2 : Nat) ≤ ([⟨"find-tasks", Json.obj []⟩, ⟨"add-task", Json.obj []⟩]
        : List FunctionCall).length
    ∧ ((buildFunctionResponses
          [⟨"find-tasks", Json.obj []⟩, ⟨"add-task", Json.obj []⟩]
          (fun _ _ => Except.ok (⟨0⟩ : ToolCallOutput Nat))).length
        = ([⟨"find-tasks", Json.obj []⟩, ⟨"add-task", Json.obj []⟩]
            : List FunctionCall).length
      ∧ (buildFunctionResponses
          [⟨"find-tasks", Json.obj []⟩, ⟨"add-task", Json.obj []⟩]
          (fun _ _ => Except.ok (⟨0⟩ : ToolCallOutput Nat))).map FunctionResponse.name
        = ([⟨"find-tasks", Json.obj []⟩, ⟨"add-task", Json.obj []⟩]
            : List FunctionCall).map FunctionCall.name
      ∧ followUpMessage (buildFunctionResponses
          [⟨"find-tasks", Json.obj []⟩, ⟨"add-task", Json.obj []⟩]
          (fun _ _ => Except.ok (⟨0⟩ : ToolCallOutput Nat)))
        = (buildFunctionResponses
            [⟨"find-tasks", Json.obj []⟩, ⟨"add-task", Json.obj []⟩]
            (fun _ _ => Except.ok (⟨0⟩ : ToolCallOutput Nat))).take 1
      ∧ (followUpMessage (buildFunctionResponses
          [⟨"find-tasks", Json.obj []⟩, ⟨"add-task", Json.obj []⟩]
          (fun _ _ => Except.ok (⟨0⟩ : ToolCallOutput Nat)))).length = 1) :=
  ⟨by decide,
   c4_only_first_result_relayed
     [⟨"find-tasks", Json.obj []⟩, ⟨"add-task", Json.obj []⟩]
     (fun _ _ => Except.ok (⟨0⟩ : ToolCallOutput Nat)) (by decide)⟩

/-- C5: if the invocation of the i-th requested call throws, the handler
synthesizes a response for that call whose content is the error
description, and the batch still yields one response per call (later
calls included), with all names preserved in order. -/
theorem c5_failed_call_synthesizes_error_result {α : Type}
    (calls : List FunctionCall)
    (invokeTool : String → Json → Except String (ToolCallOutput α))
    (i : Nat) (msg : String) (dC : FunctionCall) (dR : FunctionResponse α)
    (hi : i < calls.length)
    (herr : invokeTool (calls.getD i dC).name
        (jsOr (calls.getD i dC).args (Json.obj [])) = Except.error msg) :
    (buildFunctionResponses calls invokeTool).getD i dR
        = ⟨(calls.getD i dC).name, RespContent.errText ("Error: " ++ msg)⟩
    ∧ (buildFunctionResponses calls invokeTool).length = calls.length
    ∧ (buildFunctionResponses calls invokeTool).map FunctionResponse.name
        = calls.map FunctionCall.name := by
  refine ⟨?_, buildFunctionResponses_length calls invokeTool,
    buildFunctionResponses_names calls invokeTool⟩
  induction calls generalizing i with
  | nil => cases hi
  | cons c t ih =>
    cases i with
    | zero =>
      simp only [List.getD_cons_zero] at herr ⊢
      simp only [buildFunctionResponses, List.map_cons, List.getD_cons_zero]
      rw [herr]
    | succ i =>
      simp only [List.getD_cons_succ] at herr ⊢
      simp only [buildFunctionResponses, List.map_cons, List.getD_cons_succ]
      exact ih i (by simpa using hi) herr

/-- Witness for C5: the first of two calls fails, the second succeeds;
the first response carries the error description and both responses are
present. -/
theorem c5_failed_call_synthesizes_error_witness :
    ((fun n _ => if n = "broken" then Except.error "boom"
        else Except.ok (⟨7⟩ : ToolCallOutput Nat))
      ("broken" : String) (jsOr (Json.obj []) (Json.obj [])) = Except.error "boom")
    ∧ ((buildFunctionResponses [⟨"broken", Json.obj []⟩, ⟨"add-task", Json.obj []⟩]
          (fun n _ => if n = "broken" then Except.error "boom"
            else Except.ok (⟨7⟩ : ToolCallOutput Nat))).getD 0
          ⟨"", RespContent.errText ""⟩
        = ⟨"broken", RespContent.errText ("Error: " ++ "boom")⟩
      ∧ (buildFunctionResponses [⟨"broken", Json.obj []⟩, ⟨"add-task", Json.obj []⟩]
          (fun n _ => if n = "broken" then Except.error "boom"
            else Except.ok (⟨7⟩ : ToolCallOutput Nat))).length = 2
      ∧ (buildFunctionResponses [⟨"broken", Json.obj []⟩, ⟨"add-task", Json.obj []⟩]
          (fun n _ => if n = "broken" then Except.error "boom"
            else Except.ok (⟨7⟩ : ToolCallOutput Nat))).map FunctionResponse.name
        = ["broken", "add-task"]) := by
  refine ⟨rfl, ?_⟩
  have h := c5_failed_call_synthesizes_error_result
    [⟨"broken", Json.obj []⟩, ⟨"add-task", Json.obj []⟩]
    (fun n _ => if n = "broken" then Except.error "boom"
      else Except.ok (⟨7⟩ : ToolCallOutput Nat))
    0 "boom" ⟨"", Json.undef⟩ ⟨"", RespContent.errText ""⟩
    (by decide) rfl
  exact ⟨h.1, h.2.1, h.2.2⟩

theorem pushTurn_currentChat (st : ChatState) (r : Role) (t : String) :
    (pushTurn st r t).currentChat = st.currentChat := rfl

theorem handleModelResponse_currentChat {α : Type} {st st' : ChatState}
    {env : TurnEnv α} {result : GenResult}
    (h : handleModelResponse st env result = Except.ok st') :
    st'.currentChat = st.currentChat := by
  unfold handleModelResponse at h
  by_cases hfc : result.functionCalls.isEmpty
  · rw [if_pos hfc] at h
    injection h with h
    rw [← h]
  · rw [if_neg hfc] at h
    cases hfu : env.followUpResponse (followUpMessage
        (buildFunctionResponses result.functionCalls env.invokeTool)) with
    | error e =>
      rw [hfu] at h
      cases h
    | ok fu =>
      rw [hfu] at h
      injection h with h
      rw [← h]
      by_cases ht : fu.text.trim = ""
      · rw [if_pos ht]
      · rw [if_neg ht, pushTurn_currentChat]

theorem processUserInput_fresh_session {α : Type} (st : ChatState) (env : TurnEnv α)
    (input : String) (hnone : st.currentChat = none) :
    (processUserInput st env input).currentChat
      = some (startChatSession env.systemPrompt) := by
  unfold processUserInput
  simp only [hnone]
  cases henv : env.firstResponse with
  | error e => simp [pushTurn]
  | ok result =>
    simp only []
    cases hh : handleModelResponse
        (if result.text.trim = ""
          then pushTurn { st with currentChat := some (startChatSession env.systemPrompt) }
            Role.user input
          else pushTurn (pushTurn { st with currentChat := some (startChatSession env.systemPrompt) }
            Role.user input) Role.model result.text) env result with
    | error e =>
      simp only [hh]
      by_cases ht : result.text.trim = "" <;> simp [ht, pushTurn]
    | ok st4 =>
      simp only [hh]
      have hc := handleModelResponse_currentChat hh
      rw [hc]
      by_cases ht : result.text.trim = "" <;> simp [ht, pushTurn]

/-- C7: while a free-text turn is in flight (isProcessingRequest set), a
second free-text input is rejected with the busy notice, leaving the
state unchanged (not queued, no processing started); on a state whose
flag is clear, a free-text input is processed and the flag is clear
again afterwards (the finally), so the next free-text input is accepted
as well. -/
theorem c7_busy_guard_rejects_second_turn {α : Type} (st : ChatState)
    (env env2 : TurnEnv α) (input input2 : String)
    (hbusy : st.isProcessingRequest = true)
    (hft : FreeTextInput input) (hft2 : FreeTextInput input2) :
    onLine st env input = (st, LineAction.busyNotice)
    ∧ (∀ st2 : ChatState, st2.isProcessingRequest = false →
        ((onLine st2 env input).1.isProcessingRequest = false
          ∧ (onLine st2 env input).2 = LineAction.processed
          ∧ (onLine (onLine st2 env input).1 env2 input2).2 = LineAction.processed)) := by
  obtain ⟨h0, h1, h2, h3, h4, h5⟩ := hft
  obtain ⟨g0, g1, g2, g3, g4, g5⟩ := hft2
  constructor
  · simp only [onLine]
    rw [if_neg (by simp [h1, h2]), if_neg h0, if_neg h3, if_neg h4, if_neg h5,
      if_pos hbusy]
  · intro st2 hidle
    have hrun : onLine st2 env input
        = ({ processUserInput { st2 with isProcessingRequest := true } env (jsTrim input) with
              isProcessingRequest := false }, LineAction.processed) := by
      simp only [onLine]
      rw [if_neg (by simp [h1, h2]), if_neg h0, if_neg h3, if_neg h4, if_neg h5,
        if_neg (by simp [hidle])]
    refine ⟨by rw [hrun], by rw [hrun], ?_⟩
    rw [hrun]
    simp only [onLine]
    rw [if_neg (by simp [g1, g2]), if_neg g0, if_neg g3, if_neg g4, if_neg g5,
      if_neg (by simp)]

/-- Witness for C7 at concrete inputs: a busy state rejects a free-text
line unchanged, and an idle state processes it with the flag clear
afterwards. -/
theorem c7_busy_guard_witness :
    (ChatState.mk [] [] none true).isProcessingRequest = true
    ∧ FreeTextInput "hello"
    ∧ onLine (ChatState.mk [] [] none true)
        (TurnEnv.mk (α := Nat) "sys" (Except.error "down")
          (fun _ => Except.error "down") (fun _ _ => Except.error "x")) "hello"
      = (ChatState.mk [] [] none true, LineAction.busyNotice)
    ∧ (onLine (ChatState.mk [] [] none false)
        (TurnEnv.mk (α := Nat) "sys" (Except.error "down")
          (fun _ => Except.error "down") (fun _ _ => Except.error "x")) "hello").2
      = LineAction.processed := by
  have h := c7_busy_guard_rejects_second_turn (ChatState.mk [] [] none true)
    (TurnEnv.mk (α := Nat) "sys" (Except.error "down")
      (fun _ => Except.error "down") (fun _ _ => Except.error "x"))
    (TurnEnv.mk (α := Nat) "sys" (Except.error "down")
      (fun _ => Except.error "down") (fun _ _ => Except.error "x"))
    "hello" "hello" rfl (by decide) (by decide)
  exact ⟨rfl, by decide, h.1, (h.2 (ChatState.mk [] [] none false) rfl).2.1⟩

/-- Counterexample to C8 as stated: with an empty starting history the
model call fails, yet the user entry for the turn is already recorded in
the history (turns are not appended only after the model call
completes). -/
theorem c8_counterexample :
    (processUserInput (ChatState.mk [] [] none true)
        (TurnEnv.mk (α := Nat) "sys" (Except.error "model unavailable")
          (fun _ => Except.error "x") (fun _ _ => Except.error "x"))
        "hi").conversationHistory
      = [ConvTurn.mk Role.user ["hi"]]
    ∧ (TurnEnv.mk (α := Nat) "sys" (Except.error "model unavailable")
        (fun _ => Except.error "x") (fun _ _ => Except.error "x")).firstResponse
      = Except.error "model unavailable"
    ∧ [ConvTurn.mk Role.user ["hi"]] ≠ ([] : List ConvTurn) :=
  ⟨rfl, rfl, by decide⟩

/-- C8 (amended): the user turn is appended to the history before the
model call is made, so when the model call fails the history is exactly
the old history plus that user entry: the user turn survives the
failure, and no model turn is added. -/
theorem c8_user_turn_recorded_before_model_call {α : Type} (st : ChatState)
    (env : TurnEnv α) (input e : String)
    (herr : env.firstResponse = Except.error e) :
    (processUserInput st env input).conversationHistory
      = st.conversationHistory ++ [ConvTurn.mk Role.user [input]] := by
  cases hc : st.currentChat with
  | none => simp [processUserInput, pushTurn, hc, herr]
  | some s => simp [processUserInput, pushTurn, hc, herr]

/-- Witness for the amended C8: concrete failing turn keeps exactly the
user entry. -/
theorem c8_user_turn_recorded_witness :
    (TurnEnv.mk (α := Nat) "sys" (Except.error "down")
        (fun _ => Except.error "x") (fun _ _ => Except.error "x")).firstResponse
      = Except.error "down"
    ∧ (processUserInput (ChatState.mk [] [] none false)
        (TurnEnv.mk (α := Nat) "sys" (Except.error "down")
          (fun _ => Except.error "x") (fun _ _ => Except.error "x"))
        "hi").conversationHistory
      = [ConvTurn.mk Role.user ["hi"]] :=
  ⟨rfl,
   c8_user_turn_recorded_before_model_call (ChatState.mk [] [] none false)
     (TurnEnv.mk (α := Nat) "sys" (Except.error "down")
       (fun _ => Except.error "x") (fun _ _ => Except.error "x"))
     "hi" "down" rfl⟩

/-- C9: clearConversationHistory empties the history and drops the
cached chat session in the same operation, and the next free-text turn
then creates a fresh chat session carrying only the system instruction
and no seeded context. -/
theorem c9_clear_couples_history_and_session {α : Type} (st : ChatState)
    (env : TurnEnv α) (input : String) :
    (clearConversationHistory st).conversationHistory = []
    ∧ (clearConversationHistory st).currentChat = none
    ∧ (processUserInput (clearConversationHistory st) env input).currentChat
        = some (startChatSession env.systemPrompt)
    ∧ (startChatSession env.systemPrompt).seededHistory = [] :=
  ⟨rfl, rfl, processUserInput_fresh_session _ env input rfl, rfl⟩

/-- C10: the reserved commands are matched (case-insensitively, after
trimming) before the reentrancy guard, so a clear command entered while
a turn is in flight immediately empties the history and drops the
cached session rather than being rejected busy; history and test behave
likewise. -/
theorem c10_commands_bypass_busy_guard {α : Type} (st : ChatState)
    (env : TurnEnv α) (inpC inpH inpT : String)
    (hbusy : st.isProcessingRequest = true)
    (hC : jsToLower (jsTrim inpC) = "clear")
    (hH : jsToLower (jsTrim inpH) = "history")
    (hT : jsToLower (jsTrim inpT) = "test") :
    onLine st env inpC = (clearConversationHistory st, LineAction.clearNotice)
    ∧ (clearConversationHistory st).conversationHistory = []
    ∧ (clearConversationHistory st).currentChat = none
    ∧ onLine st env inpH = (st, LineAction.showHistory)
    ∧ onLine st env inpT = (st, LineAction.runTest) := by
  refine ⟨?_, rfl, rfl, ?_, ?_⟩
  · simp only [onLine]
    rw [if_neg (by simp [hC]), if_neg (fun he => by rw [he] at hC; exact absurd hC (by decide)),
      if_neg (by simp [hC]), if_pos hC]
  · simp only [onLine]
    rw [if_neg (by simp [hH]), if_neg (fun he => by rw [he] at hH; exact absurd hH (by decide)),
      if_pos hH]
  · simp only [onLine]
    rw [if_neg (by simp [hT]), if_neg (fun he => by rw [he] at hT; exact absurd hT (by decide)),
      if_neg (by simp [hT]), if_neg (by simp [hT]), if_pos hT]

/-- Witness for C10: a busy state still honors a mixed-case padded clear
command (history cleared, session dropped) and the other commands. -/
theorem c10_commands_bypass_witness :
    (ChatState.mk [] [ConvTurn.mk Role.user ["x"]]
        (some (startChatSession "sys")) true).isProcessingRequest = true
    ∧ jsToLower (jsTrim "  CLEar ") = "clear"
    ∧ onLine (ChatState.mk [] [ConvTurn.mk Role.user ["x"]]
          (some (startChatSession "sys")) true)
        (TurnEnv.mk (α := Nat) "sys" (Except.error "down")
          (fun _ => Except.error "down") (fun _ _ => Except.error "x"))
        "  CLEar "
      = (clearConversationHistory (ChatState.mk [] [ConvTurn.mk Role.user ["x"]]
          (some (startChatSession "sys")) true), LineAction.clearNotice) := by
  have h := c10_commands_bypass_busy_guard
    (ChatState.mk [] [ConvTurn.mk Role.user ["x"]] (some (startChatSession "sys")) true)
    (TurnEnv.mk (α := Nat) "sys" (Except.error "down")
      (fun _ => Except.error "down") (fun _ _ => Except.error "x"))
    "  CLEar " "history" "test" rfl (by decide) (by decide) (by decide)
  exact ⟨rfl, by decide, h.1⟩
